import Mathlib

/-!
Verification of the strfile index decoder (`src/lib.rs` of `strmap`).

The byte source (`io::Read + io::Seek`, used as a `Cursor` over a byte
slice) is embedded as the list of bytes remaining at the current
position: a successful read consumes its bytes from the front, a failed
`read_exact` consumes everything that was left (the cursor ends at
end-of-stream), and a forward seek drops bytes.  Bytes are `Nat` values;
all multi-byte integers are big-endian as in the source.
-/

set_option synthInstance.maxSize 512

namespace StrmapProof

/-- Big-endian combination of four bytes, as `ReadBytesExt::read_u32::<NetworkEndian>` does. -/
def beU32 (b0 b1 b2 b3 : Nat) : Nat :=
  ((b0 * 256 + b1) * 256 + b2) * 256 + b3

/-- Embedding of `read_u32::<NetworkEndian>` on the remaining bytes: either the
next four bytes combined big-endian, or a failure that leaves the cursor at
end-of-stream (`read_exact` consumes what was left before failing). -/
def readU32 : List Nat → Option Nat × List Nat
  | b0 :: b1 :: b2 :: b3 :: rest => (some (beU32 b0 b1 b2 b3), rest)
  | _ => (none, [])

/-- Embedding of `read_u8`: the next byte, or failure at end-of-stream. -/
def readU8 : List Nat → Option Nat × List Nat
  | b :: rest => (some b, rest)
  | [] => (none, [])

/-- Embedding of `StrFlags::from_bits` (lib.rs lines 7-13): the three declared
bits are `STR_RANDOM = 0x1`, `STR_ORDERED = 0x2`, `STR_ROTATED = 0x4`, so
`from_bits` succeeds exactly when no bit outside `0x7` is set. -/
def strFlagsFromBits (bits : Nat) : Option Nat :=
  if Nat.land bits 7 = bits then some bits else none

/-- Embedding of `OffsetsIter` (lib.rs lines 190-231): the first raw value seeds
`last` and emits nothing; every later value `v` emits `(last, v)` and replaces
`last`.  Equivalently, adjacent pairs of the value list. -/
def offsetsPairs : List Nat → List (Nat × Nat)
  | [] => []
  | [_] => []
  | a :: b :: rest => (a, b) :: offsetsPairs (b :: rest)

/-- Embedding of the offset collection loop of `StrMap::read` (lib.rs line 48):
`(0..n).filter_map(|_| s.read_u32().ok())` — a failed read is skipped, not
fatal, and iteration continues on the drained stream. -/
def readValues : Nat → List Nat → List Nat
  | 0, _ => []
  | n + 1, s =>
    match readU32 s with
    | (some v, s') => v :: readValues n s'
    | (none, s') => readValues n s'

/-- Embedding of the offset collection loop of `_x64_read` (lib.rs lines
134-142): like `readValues`, but every read (successful or not) is followed by
a 4-byte forward seek over the padding. -/
def readValuesX64 : Nat → List Nat → List Nat
  | 0, _ => []
  | n + 1, s =>
    match readU32 s with
    | (some v, s') => v :: readValuesX64 n (s'.drop 4)
    | (none, s') => readValuesX64 n (s'.drop 4)

/-- Decode failures of `StrMap::read` / `_x64_read`.  `truncated` is the
`io::Error` produced when a read runs past end-of-stream; `unrecognizedFlags`
models the panic of `StrFlags::from_bits(..).expect("well, dammit")` on a flags
word with unknown bits (no `StrMap` is produced); `countMismatch` is the
explicit `io::Error` whose message carries the declared and the actual count. -/
inductive DecodeError where
  | truncated : DecodeError
  | unrecognizedFlags : DecodeError
  | countMismatch (declared actual : Nat) : DecodeError
deriving DecidableEq, Repr

/-- The decoded index (lib.rs lines 15-24). -/
structure StrMap where
  version : Nat
  count : Nat
  longest : Nat
  shortest : Nat
  flags : Nat
  delimiter : Nat
  offsets : List (Nat × Nat)
deriving DecidableEq, Repr

/-- Header-and-raw-values phase of `_x64_read` (lib.rs lines 112-142), after the
version word has been consumed: each field read is preceded by a 4-byte seek
over padding, the flags word must pass `StrFlags::from_bits`, the delimiter is
one byte followed by a 7-byte seek, then `count + 1` (u32 arithmetic) padded
offset reads are attempted.  Returns the six header fields (version is the
literal `1`) together with the collected raw offset values. -/
def x64ReadRaw (s : List Nat) : Except DecodeError (Nat × Nat × Nat × Nat × Nat × Nat × List Nat) :=
  match readU32 (s.drop 4) with
  | (none, _) => .error .truncated
  | (some count, s) =>
  match readU32 (s.drop 4) with
  | (none, _) => .error .truncated
  | (some longest, s) =>
  match readU32 (s.drop 4) with
  | (none, _) => .error .truncated
  | (some shortest, s) =>
  match readU32 (s.drop 4) with
  | (none, _) => .error .truncated
  | (some rawFlags, s) =>
  match strFlagsFromBits rawFlags with
  | none => .error .unrecognizedFlags
  | some flags =>
  match readU8 (s.drop 4) with
  | (none, _) => .error .truncated
  | (some delimiter, s) =>
    .ok (1, count, longest, shortest, flags, delimiter,
      readValuesX64 ((count + 1) % 2 ^ 32) (s.drop 7))

/-- Header-and-raw-values phase of the standard branch of `StrMap::read`
(lib.rs lines 37-48), after the version word has been consumed: the four u32
fields are contiguous, the flags word must pass `StrFlags::from_bits`, the
delimiter is one byte followed by a 3-byte seek, then `count + 1`
(u32 arithmetic) offset reads are attempted. -/
def stdReadRaw (version : Nat) (s : List Nat) :
    Except DecodeError (Nat × Nat × Nat × Nat × Nat × Nat × List Nat) :=
  match readU32 s with
  | (none, _) => .error .truncated
  | (some count, s) =>
  match readU32 s with
  | (none, _) => .error .truncated
  | (some longest, s) =>
  match readU32 s with
  | (none, _) => .error .truncated
  | (some shortest, s) =>
  match readU32 s with
  | (none, _) => .error .truncated
  | (some rawFlags, s) =>
  match strFlagsFromBits rawFlags with
  | none => .error .unrecognizedFlags
  | some flags =>
  match readU8 s with
  | (none, _) => .error .truncated
  | (some delimiter, s) =>
    .ok (version, count, longest, shortest, flags, delimiter,
      readValues ((count + 1) % 2 ^ 32) (s.drop 3))

/-- Final phase shared verbatim by both branches (lib.rs lines 49-67 and
144-162): pair the raw values through `OffsetsIter`, require the declared count
to equal the number of pairs, and assemble the `StrMap`. -/
def finishRead : Nat × Nat × Nat × Nat × Nat × Nat × List Nat → Except DecodeError StrMap
  | (version, count, longest, shortest, flags, delimiter, values) =>
    let offsets := offsetsPairs values
    if count ≠ offsets.length then
      .error (.countMismatch count offsets.length)
    else
      .ok ⟨version, count, longest, shortest, flags, delimiter, offsets⟩

/-- Embedding of `_x64_read` (lib.rs lines 112-162): the padded-layout strategy,
entered with the version word already consumed. -/
def x64Read (s : List Nat) : Except DecodeError StrMap :=
  (x64ReadRaw s).bind finishRead

/-- Embedding of `StrMap::read` (lib.rs lines 27-67): read the version word;
`1` dispatches to `_x64_read`, anything else continues with the standard
layout on the same stream. -/
def StrMap.read (s : List Nat) : Except DecodeError StrMap :=
  match readU32 s with
  | (none, _) => .error .truncated
  | (some version, s) =>
    if version = 1 then x64Read s
    else (stdReadRaw version s).bind finishRead

/-- Embedding of `StrMap::is_random` (lib.rs line 91): `flags.contains(STR_RANDOM)`,
i.e. `flags & 0x1 == 0x1`. -/
def StrMap.is_random (m : StrMap) : Bool :=
  Nat.land m.flags 1 == 1

/-- Embedding of `StrMap::is_ordered` (lib.rs line 96): `flags & 0x2 == 0x2`. -/
def StrMap.is_ordered (m : StrMap) : Bool :=
  Nat.land m.flags 2 == 2

/-- Embedding of `StrMap::is_rotated` (lib.rs line 101): `flags & 0x4 == 0x4`. -/
def StrMap.is_rotated (m : StrMap) : Bool :=
  Nat.land m.flags 4 == 4

/-- Embedding of `StrMap::len` (lib.rs line 71). -/
def StrMap.len (m : StrMap) : Nat := m.count

/-- The four big-endian bytes of a 32-bit value, for building input streams. -/
def u32Bytes (v : Nat) : List Nat :=
  [v / 2 ^ 24 % 256, v / 2 ^ 16 % 256, v / 2 ^ 8 % 256, v % 256]

/-- Four padding bytes, as written by a 64-bit build of strfile. -/
def pad4 : List Nat := [0, 0, 0, 0]

/-- A standard-layout file (spec section 6): `version, count, longest, shortest,
flags` as big-endian u32, one delimiter byte, three padding bytes, then the raw
offsets as big-endian u32 values. -/
def encodeStd (version count longest shortest flags delimiter : Nat) (offs : List Nat) :
    List Nat :=
  u32Bytes version ++ u32Bytes count ++ u32Bytes longest ++ u32Bytes shortest ++
    u32Bytes flags ++ [delimiter] ++ [0, 0, 0] ++ (offs.map u32Bytes).flatten

/-- A padded-layout file (spec section 6): version word `1`, every header field
and every offset followed by four padding bytes, the delimiter byte followed by
seven padding bytes. -/
def encodeX64 (count longest shortest flags delimiter : Nat) (offs : List Nat) :
    List Nat :=
  u32Bytes 1 ++ pad4 ++ u32Bytes count ++ pad4 ++ u32Bytes longest ++ pad4 ++
    u32Bytes shortest ++ pad4 ++ u32Bytes flags ++ pad4 ++ [delimiter] ++
    [0, 0, 0, 0, 0, 0, 0] ++ (offs.map (fun o => u32Bytes o ++ pad4)).flatten

/-- Dispatch and header phase of `StrMap::read` without the final validation:
the version word selects `x64ReadRaw` or `stdReadRaw` exactly as lib.rs
lines 31-35 select `_x64_read` or the inline standard path. -/
def headerRaw (s : List Nat) : Except DecodeError (Nat × Nat × Nat × Nat × Nat × Nat × List Nat) :=
  match readU32 s with
  | (none, _) => .error .truncated
  | (some version, s) =>
    if version = 1 then x64ReadRaw s else stdReadRaw version s

theorem readU32_u32Bytes {v : Nat} {r : List Nat} (h : v < 2 ^ 32) :
    readU32 (u32Bytes v ++ r) = (some v, r) := by
  simp only [u32Bytes, List.cons_append, List.nil_append, readU32, Prod.mk.injEq,
    Option.some.injEq, beU32, and_true]
  omega

theorem readValues_nil (n : Nat) : readValues n [] = [] := by
  induction n with
  | zero => rfl
  | succ n ih => simpa [readValues, readU32] using ih

theorem readValuesX64_nil (n : Nat) : readValuesX64 n [] = [] := by
  induction n with
  | zero => rfl
  | succ n ih => simpa [readValuesX64, readU32] using ih

theorem readValues_length_le (n : Nat) (s : List Nat) : (readValues n s).length ≤ n := by
  induction n generalizing s with
  | zero => simp [readValues]
  | succ n ih =>
    rw [readValues]
    rcases h : readU32 s with ⟨o, s'⟩
    cases o <;> simp only [h]
    · exact Nat.le_succ_of_le (ih s')
    · simpa using Nat.succ_le_succ (ih s')

theorem readValuesX64_length_le (n : Nat) (s : List Nat) : (readValuesX64 n s).length ≤ n := by
  induction n generalizing s with
  | zero => simp [readValuesX64]
  | succ n ih =>
    rw [readValuesX64]
    rcases h : readU32 s with ⟨o, s'⟩
    cases o <;> simp only [h]
    · exact Nat.le_succ_of_le (ih _)
    · simpa using Nat.succ_le_succ (ih _)

theorem readValues_flatten (offs : List Nat) (n : Nat) (h : ∀ o ∈ offs, o < 2 ^ 32) :
    readValues n (offs.map u32Bytes).flatten = offs.take n := by
  induction offs generalizing n with
  | nil => simp [readValues_nil]
  | cons o os ih =>
    cases n with
    | zero => rfl
    | succ n =>
      have ho : o < 2 ^ 32 := h o (by simp)
      rw [List.map_cons, List.flatten_cons, readValues, readU32_u32Bytes ho]
      simpa using ih n (fun x hx => h x (by simp [hx]))

theorem drop4_cons (a b c d : Nat) (r : List Nat) : List.drop 4 (a :: b :: c :: d :: r) = r :=
  rfl

theorem readValuesX64_flatten (offs : List Nat) (n : Nat) (h : ∀ o ∈ offs, o < 2 ^ 32) :
    readValuesX64 n (offs.map (fun o => u32Bytes o ++ pad4)).flatten = offs.take n := by
  induction offs generalizing n with
  | nil => simp [readValuesX64_nil]
  | cons o os ih =>
    cases n with
    | zero => rfl
    | succ n =>
      have ho : o < 2 ^ 32 := h o (by simp)
      rw [List.map_cons, List.flatten_cons, List.append_assoc, readValuesX64,
        readU32_u32Bytes ho]
      simpa [pad4, drop4_cons] using ih n (fun x hx => h x (by simp [hx]))

theorem offsetsPairs_length (vs : List Nat) : (offsetsPairs vs).length = vs.length - 1 := by
  induction vs with
  | nil => rfl
  | cons a tail ih =>
    cases tail with
    | nil => rfl
    | cons b rest =>
      simp only [offsetsPairs, List.length_cons] at ih ⊢
      omega

theorem offsetsPairs_map_fst (vs : List Nat) :
    (offsetsPairs vs).map Prod.fst = vs.dropLast := by
  induction vs with
  | nil => rfl
  | cons a tail ih =>
    cases tail with
    | nil => rfl
    | cons b rest => simpa [offsetsPairs, List.dropLast_cons₂] using ih

theorem offsetsPairs_map_snd (vs : List Nat) :
    (offsetsPairs vs).map Prod.snd = vs.tail := by
  induction vs with
  | nil => rfl
  | cons a tail ih =>
    cases tail with
    | nil => rfl
    | cons b rest => simpa [offsetsPairs] using ih

theorem offsetsPairs_getD (vs : List Nat) (i : Nat) (h : i < (offsetsPairs vs).length) :
    (offsetsPairs vs).getD i (0, 0) = (vs.getD i 0, vs.getD (i + 1) 0) := by
  induction vs generalizing i with
  | nil => simp [offsetsPairs] at h
  | cons a tail ih =>
    cases tail with
    | nil => simp [offsetsPairs] at h
    | cons b rest =>
      cases i with
      | zero => simp [offsetsPairs]
      | succ i =>
        simp only [offsetsPairs, List.length_cons, Nat.succ_lt_succ_iff] at h
        simpa [offsetsPairs, List.getD_cons_succ] using ih i h

theorem finishRead_mismatch (v c lg sh fl d : Nat) (vs : List Nat)
    (h : c ≠ (offsetsPairs vs).length) :
    finishRead (v, c, lg, sh, fl, d, vs) = .error (.countMismatch c (offsetsPairs vs).length) := by
  simp [finishRead, h]

theorem finishRead_ok_iff {v c lg sh fl d : Nat} {vs : List Nat} {m : StrMap} :
    finishRead (v, c, lg, sh, fl, d, vs) = .ok m ↔
      c = (offsetsPairs vs).length ∧ m = ⟨v, c, lg, sh, fl, d, offsetsPairs vs⟩ := by
  simp only [finishRead]
  split_ifs with hc
  · simp [hc]
  · simp only [not_not] at hc
    simp [hc, eq_comm]

theorem read_eq_headerRaw (s : List Nat) :
    StrMap.read s = (headerRaw s).bind finishRead := by
  unfold StrMap.read headerRaw
  rcases h : readU32 s with ⟨o, t⟩
  cases o
  · rfl
  · simp only []
    split
    · rfl
    · rfl

theorem strFlagsFromBits_some {b fl : Nat} (h : strFlagsFromBits b = some fl) :
    Nat.land fl 7 = fl := by
  unfold strFlagsFromBits at h
  split_ifs at h with hb
  · cases h; exact hb

theorem stdReadRaw_ok {ver : Nat} {s : List Nat} {v c lg sh fl d : Nat} {vs : List Nat}
    (h : stdReadRaw ver s = .ok (v, c, lg, sh, fl, d, vs)) :
    v = ver ∧ Nat.land fl 7 = fl ∧ ∃ t, vs = readValues ((c + 1) % 2 ^ 32) t := by
  unfold stdReadRaw at h
  rcases h1 : readU32 s with ⟨_ | count, s1⟩ <;> rw [h1] at h
  · exact absurd h (by simp)
  dsimp only at h
  rcases h2 : readU32 s1 with ⟨_ | longest, s2⟩ <;> rw [h2] at h
  · exact absurd h (by simp)
  dsimp only at h
  rcases h3 : readU32 s2 with ⟨_ | shortest, s3⟩ <;> rw [h3] at h
  · exact absurd h (by simp)
  dsimp only at h
  rcases h4 : readU32 s3 with ⟨_ | rawFlags, s4⟩ <;> rw [h4] at h
  · exact absurd h (by simp)
  dsimp only at h
  rcases h5 : strFlagsFromBits rawFlags with _ | flags <;> rw [h5] at h
  · exact absurd h (by simp)
  dsimp only at h
  rcases h6 : readU8 s4 with ⟨_ | delim, s5⟩ <;> rw [h6] at h
  · exact absurd h (by simp)
  dsimp only at h
  simp only [Except.ok.injEq, Prod.mk.injEq] at h
  obtain ⟨hv, hc, hlg, hsh, hfl, hd, hvs⟩ := h
  subst hv hc hfl
  exact ⟨rfl, strFlagsFromBits_some h5, ⟨s5.drop 3, hvs.symm⟩⟩

theorem x64ReadRaw_ok {s : List Nat} {v c lg sh fl d : Nat} {vs : List Nat}
    (h : x64ReadRaw s = .ok (v, c, lg, sh, fl, d, vs)) :
    v = 1 ∧ Nat.land fl 7 = fl ∧ ∃ t, vs = readValuesX64 ((c + 1) % 2 ^ 32) t := by
  unfold x64ReadRaw at h
  rcases h1 : readU32 (s.drop 4) with ⟨_ | count, s1⟩ <;> rw [h1] at h
  · exact absurd h (by simp)
  dsimp only at h
  rcases h2 : readU32 (s1.drop 4) with ⟨_ | longest, s2⟩ <;> rw [h2] at h
  · exact absurd h (by simp)
  dsimp only at h
  rcases h3 : readU32 (s2.drop 4) with ⟨_ | shortest, s3⟩ <;> rw [h3] at h
  · exact absurd h (by simp)
  dsimp only at h
  rcases h4 : readU32 (s3.drop 4) with ⟨_ | rawFlags, s4⟩ <;> rw [h4] at h
  · exact absurd h (by simp)
  dsimp only at h
  rcases h5 : strFlagsFromBits rawFlags with _ | flags <;> rw [h5] at h
  · exact absurd h (by simp)
  dsimp only at h
  rcases h6 : readU8 (s4.drop 4) with ⟨_ | delim, s5⟩ <;> rw [h6] at h
  · exact absurd h (by simp)
  dsimp only at h
  simp only [Except.ok.injEq, Prod.mk.injEq] at h
  obtain ⟨hv, hc, hlg, hsh, hfl, hd, hvs⟩ := h
  subst hv hc hfl
  exact ⟨rfl, strFlagsFromBits_some h5, ⟨s5.drop 7, hvs.symm⟩⟩

theorem except_bind_ok {ε α β : Type} {x : Except ε α} {f : α → Except ε β} {b : β}
    (h : x.bind f = .ok b) : ∃ a, x = .ok a ∧ f a = .ok b := by
  cases x with
  | error e => simp [Except.bind] at h
  | ok a => exact ⟨a, rfl, h⟩

/-- Central inversion lemma: every successful decode validated its count
against the derived pairs, its flags against the three known bits, and built
its offsets by pairing a value list produced by one of the two offset-reading
loops with the budget `(count + 1) mod 2^32`. -/
theorem read_ok_inv {s : List Nat} {m : StrMap} (h : StrMap.read s = .ok m) :
    m.offsets.length = m.count ∧ Nat.land m.flags 7 = m.flags ∧
      ∃ vs, m.offsets = offsetsPairs vs ∧
        ((∃ t, vs = readValues ((m.count + 1) % 2 ^ 32) t) ∨
          (∃ t, vs = readValuesX64 ((m.count + 1) % 2 ^ 32) t)) := by
  rw [read_eq_headerRaw] at h
  obtain ⟨⟨v, c, lg, sh, fl, d, vs⟩, hraw, hfin⟩ := except_bind_ok h
  rw [finishRead_ok_iff] at hfin
  obtain ⟨hc, hm⟩ := hfin
  subst hm
  unfold headerRaw at hraw
  rcases h0 : readU32 s with ⟨o, t⟩
  rw [h0] at hraw
  cases o with
  | none => exact absurd hraw (by simp)
  | some ver =>
    simp only [] at hraw
    split at hraw
    · obtain ⟨_, hfl, t', ht'⟩ := x64ReadRaw_ok hraw
      exact ⟨by simp [hc], hfl, vs, rfl, Or.inr ⟨t', by simpa [hc.symm] using ht'⟩⟩
    · obtain ⟨_, hfl, t', ht'⟩ := stdReadRaw_ok hraw
      exact ⟨by simp [hc], hfl, vs, rfl, Or.inl ⟨t', by simpa [hc.symm] using ht'⟩⟩

theorem readU8_cons (b : Nat) (r : List Nat) : readU8 (b :: r) = (some b, r) :=
  rfl

theorem drop3_cons (a b c : Nat) (r : List Nat) : List.drop 3 (a :: b :: c :: r) = r :=
  rfl

theorem drop7_cons (a b c d e f g : Nat) (r : List Nat) :
    List.drop 7 (a :: b :: c :: d :: e :: f :: g :: r) = r :=
  rfl

theorem strFlagsFromBits_valid {fl : Nat} (h : Nat.land fl 7 = fl) :
    strFlagsFromBits fl = some fl := by
  simp [strFlagsFromBits, h]

theorem strFlagsFromBits_invalid {fl : Nat} (h : Nat.land fl 7 ≠ fl) :
    strFlagsFromBits fl = none := by
  simp [strFlagsFromBits, h]

theorem stdReadRaw_encode {v c lg sh fl d : Nat} (offs : List Nat)
    (hc : c < 2 ^ 32) (hlg : lg < 2 ^ 32) (hsh : sh < 2 ^ 32) (hfl : fl < 2 ^ 32)
    (hvalid : Nat.land fl 7 = fl) (ho : ∀ o ∈ offs, o < 2 ^ 32) :
    stdReadRaw v (u32Bytes c ++ u32Bytes lg ++ u32Bytes sh ++ u32Bytes fl ++
        [d] ++ [0, 0, 0] ++ (offs.map u32Bytes).flatten) =
      .ok (v, c, lg, sh, fl, d, offs.take ((c + 1) % 2 ^ 32)) := by
  simp only [List.append_assoc, List.cons_append, List.nil_append]
  rw [stdReadRaw, readU32_u32Bytes hc]
  dsimp only
  rw [readU32_u32Bytes hlg]
  dsimp only
  rw [readU32_u32Bytes hsh]
  dsimp only
  rw [readU32_u32Bytes hfl]
  dsimp only
  rw [strFlagsFromBits_valid hvalid]
  dsimp only
  rw [readU8_cons]
  dsimp only
  rw [drop3_cons, readValues_flatten _ _ ho]

theorem stdReadRaw_badFlags {v c lg sh fl : Nat} (rest : List Nat)
    (hc : c < 2 ^ 32) (hlg : lg < 2 ^ 32) (hsh : sh < 2 ^ 32) (hfl : fl < 2 ^ 32)
    (hbad : Nat.land fl 7 ≠ fl) :
    stdReadRaw v (u32Bytes c ++ u32Bytes lg ++ u32Bytes sh ++ u32Bytes fl ++ rest) =
      .error .unrecognizedFlags := by
  simp only [List.append_assoc]
  rw [stdReadRaw, readU32_u32Bytes hc]
  dsimp only
  rw [readU32_u32Bytes hlg]
  dsimp only
  rw [readU32_u32Bytes hsh]
  dsimp only
  rw [readU32_u32Bytes hfl]
  dsimp only
  rw [strFlagsFromBits_invalid hbad]

theorem x64ReadRaw_encode {c lg sh fl d : Nat} (offs : List Nat)
    (hc : c < 2 ^ 32) (hlg : lg < 2 ^ 32) (hsh : sh < 2 ^ 32) (hfl : fl < 2 ^ 32)
    (hvalid : Nat.land fl 7 = fl) (ho : ∀ o ∈ offs, o < 2 ^ 32) :
    x64ReadRaw (pad4 ++ u32Bytes c ++ pad4 ++ u32Bytes lg ++ pad4 ++ u32Bytes sh ++
        pad4 ++ u32Bytes fl ++ pad4 ++ [d] ++ [0, 0, 0, 0, 0, 0, 0] ++
        (offs.map (fun o => u32Bytes o ++ pad4)).flatten) =
      .ok (1, c, lg, sh, fl, d, offs.take ((c + 1) % 2 ^ 32)) := by
  simp only [List.append_assoc, pad4, List.cons_append, List.nil_append]
  rw [x64ReadRaw, drop4_cons, readU32_u32Bytes hc]
  dsimp only
  rw [drop4_cons, readU32_u32Bytes hlg]
  dsimp only
  rw [drop4_cons, readU32_u32Bytes hsh]
  dsimp only
  rw [drop4_cons, readU32_u32Bytes hfl]
  dsimp only
  rw [strFlagsFromBits_valid hvalid]
  dsimp only
  rw [drop4_cons, readU8_cons]
  dsimp only
  rw [drop7_cons]
  have := readValuesX64_flatten offs ((c + 1) % 2 ^ 32) ho
  simpa [pad4, List.append_assoc] using this

theorem x64ReadRaw_badFlags {c lg sh fl : Nat} (p1 p2 p3 p4 : List Nat) (rest : List Nat)
    (hp1 : p1.length = 4) (hp2 : p2.length = 4) (hp3 : p3.length = 4) (hp4 : p4.length = 4)
    (hc : c < 2 ^ 32) (hlg : lg < 2 ^ 32) (hsh : sh < 2 ^ 32) (hfl : fl < 2 ^ 32)
    (hbad : Nat.land fl 7 ≠ fl) :
    x64ReadRaw (p1 ++ u32Bytes c ++ p2 ++ u32Bytes lg ++ p3 ++ u32Bytes sh ++
        p4 ++ u32Bytes fl ++ rest) =
      .error .unrecognizedFlags := by
  simp only [List.append_assoc]
  rw [x64ReadRaw, List.drop_left' hp1, readU32_u32Bytes hc]
  dsimp only
  rw [List.drop_left' hp2, readU32_u32Bytes hlg]
  dsimp only
  rw [List.drop_left' hp3, readU32_u32Bytes hsh]
  dsimp only
  rw [List.drop_left' hp4, readU32_u32Bytes hfl]
  dsimp only
  rw [strFlagsFromBits_invalid hbad]

theorem headerRaw_encodeStd {v c lg sh fl d : Nat} (offs : List Nat)
    (hv : v < 2 ^ 32) (hv1 : v ≠ 1)
    (hc : c < 2 ^ 32) (hlg : lg < 2 ^ 32) (hsh : sh < 2 ^ 32) (hfl : fl < 2 ^ 32)
    (hvalid : Nat.land fl 7 = fl) (ho : ∀ o ∈ offs, o < 2 ^ 32) :
    headerRaw (encodeStd v c lg sh fl d offs) =
      .ok (v, c, lg, sh, fl, d, offs.take ((c + 1) % 2 ^ 32)) := by
  rw [encodeStd]
  simp only [List.append_assoc]
  rw [headerRaw, readU32_u32Bytes hv]
  dsimp only
  rw [if_neg hv1]
  have := stdReadRaw_encode (v := v) (d := d) offs hc hlg hsh hfl hvalid ho
  simpa [List.append_assoc] using this

theorem headerRaw_encodeX64 {c lg sh fl d : Nat} (offs : List Nat)
    (hc : c < 2 ^ 32) (hlg : lg < 2 ^ 32) (hsh : sh < 2 ^ 32) (hfl : fl < 2 ^ 32)
    (hvalid : Nat.land fl 7 = fl) (ho : ∀ o ∈ offs, o < 2 ^ 32) :
    headerRaw (encodeX64 c lg sh fl d offs) =
      .ok (1, c, lg, sh, fl, d, offs.take ((c + 1) % 2 ^ 32)) := by
  rw [encodeX64]
  simp only [List.append_assoc]
  rw [headerRaw, readU32_u32Bytes (by norm_num)]
  dsimp only
  rw [if_pos rfl]
  have := x64ReadRaw_encode (d := d) offs hc hlg hsh hfl hvalid ho
  simpa [List.append_assoc] using this

instance {ε α : Type} [DecidableEq ε] [DecidableEq α] : DecidableEq (Except ε α) :=
  fun a b =>
    match a, b with
    | .ok x, .ok y =>
      if h : x = y then .isTrue (by rw [h]) else .isFalse (by simp [h])
    | .error e, .error f =>
      if h : e = f then .isTrue (by rw [h]) else .isFalse (by simp [h])
    | .ok _, .error _ => .isFalse (by simp)
    | .error _, .ok _ => .isFalse (by simp)

/-! ### Claim theorems -/

/-- Claim C1 counterexample: a standard-layout stream with declared count 0 and
no offset bytes at all decodes successfully, yet the raw-value list collected by
the offset loop is empty — zero raw offsets were read, not `count + 1 = 1`.  So
a successful decode does not always read `count + 1` raw offsets. -/
theorem claim_C1_counterexample :
    headerRaw (encodeStd 0 0 0 0 0 0 []) = .ok (0, 0, 0, 0, 0, 0, []) ∧
    StrMap.read (encodeStd 0 0 0 0 0 0 []) = .ok ⟨0, 0, 0, 0, 0, 0, []⟩ ∧
    ([] : List Nat).length ≠ 0 + 1 := by
  refine ⟨by decide, by decide, by decide⟩

/-- Claim C1 (amended): for every successful decode there is a raw value list
`vs`, produced by the active layout's offset loop with budget
`(count + 1) mod 2^32`, such that the spans are exactly the adjacent pairs of
`vs`: span starts are `vs.dropLast`, span ends are `vs.tail`, the end of span
`i` equals the start of span `i + 1`, and the final raw value never starts a
span.  Whenever `count ≥ 1`, `vs` has exactly `count + 1` elements; when
`count = 0` the loop may have read zero or one raw offsets. -/
theorem claim_C1_amended {s : List Nat} {m : StrMap} (h : StrMap.read s = .ok m) :
    ∃ vs : List Nat,
      ((∃ t, vs = readValues ((m.count + 1) % 2 ^ 32) t) ∨
        (∃ t, vs = readValuesX64 ((m.count + 1) % 2 ^ 32) t)) ∧
      m.offsets = offsetsPairs vs ∧
      m.offsets.map Prod.fst = vs.dropLast ∧
      m.offsets.map Prod.snd = vs.tail ∧
      (1 ≤ m.count → vs.length = m.count + 1) ∧
      (∀ i, i + 1 < m.offsets.length →
        (m.offsets.getD i (0, 0)).2 = (m.offsets.getD (i + 1) (0, 0)).1) := by
  obtain ⟨hlen, -, vs, hoff, hsrc⟩ := read_ok_inv h
  refine ⟨vs, hsrc, hoff, ?_, ?_, ?_, ?_⟩
  · rw [hoff, offsetsPairs_map_fst]
  · rw [hoff, offsetsPairs_map_snd]
  · intro h1
    have hL : (offsetsPairs vs).length = vs.length - 1 := offsetsPairs_length vs
    have h2 : m.offsets.length = m.count := hlen
    rw [hoff] at h2
    omega
  · intro i hi
    rw [hoff] at hi ⊢
    have h1 := offsetsPairs_getD vs i (by omega)
    have h2 := offsetsPairs_getD vs (i + 1) hi
    rw [h1, h2]

/-- Claim C1 witness: a concrete two-record standard-layout decode, where the
raw offsets `[0, 17, 33]` yield exactly the spans `[(0, 17), (17, 33)]`. -/
theorem claim_C1_witness :
    StrMap.read (encodeStd 0 2 9 4 3 37 [0, 17, 33]) =
      .ok ⟨0, 2, 9, 4, 3, 37, [(0, 17), (17, 33)]⟩ ∧
    ∃ vs : List Nat,
      ((∃ t, vs = readValues ((2 + 1) % 2 ^ 32) t) ∨
        (∃ t, vs = readValuesX64 ((2 + 1) % 2 ^ 32) t)) ∧
      [(0, 17), (17, 33)] = offsetsPairs vs ∧
      ([(0, 17), (17, 33)] : List (Nat × Nat)).map Prod.fst = vs.dropLast ∧
      ([(0, 17), (17, 33)] : List (Nat × Nat)).map Prod.snd = vs.tail ∧
      (1 ≤ 2 → vs.length = 2 + 1) ∧
      (∀ i, i + 1 < ([(0, 17), (17, 33)] : List (Nat × Nat)).length →
        (([(0, 17), (17, 33)] : List (Nat × Nat)).getD i (0, 0)).2 =
          (([(0, 17), (17, 33)] : List (Nat × Nat)).getD (i + 1) (0, 0)).1) :=
  ⟨by decide,
    @claim_C1_amended (encodeStd 0 2 9 4 3 37 [0, 17, 33])
      ⟨0, 2, 9, 4, 3, 37, [(0, 17), (17, 33)]⟩ (by decide)⟩

/-- Claim C2: a decode (in either layout) succeeds only when the number of
derived spans equals the declared count; and whenever the header phase
succeeds but the derived span count differs from the declared count, the
result is exactly the `countMismatch` error carrying the declared count and
the actual derived span count. -/
theorem claim_C2 (s : List Nat) :
    (∀ m : StrMap, StrMap.read s = .ok m → m.offsets.length = m.count) ∧
    (∀ v c lg sh fl d : Nat, ∀ vs : List Nat,
      headerRaw s = .ok (v, c, lg, sh, fl, d, vs) →
      (offsetsPairs vs).length ≠ c →
      StrMap.read s = .error (.countMismatch c (offsetsPairs vs).length)) := by
  constructor
  · intro m h
    exact (read_ok_inv h).1
  · intro v c lg sh fl d vs hh hne
    rw [read_eq_headerRaw, hh]
    exact finishRead_mismatch v c lg sh fl d vs (fun hc => hne hc.symm)

/-- Claim C2 witness: declared count 5 with only two raw offsets present fails
with the error carrying declared 5 and actual 1. -/
theorem claim_C2_witness :
    headerRaw (encodeStd 0 5 0 0 0 0 [10, 20]) = .ok (0, 5, 0, 0, 0, 0, [10, 20]) ∧
    StrMap.read (encodeStd 0 5 0 0 0 0 [10, 20]) = .error (.countMismatch 5 1) := by
  refine ⟨by decide, ?_⟩
  exact (claim_C2 (encodeStd 0 5 0 0 0 0 [10, 20])).2 0 5 0 0 0 0 [10, 20]
    (by decide) (by decide)

/-- Claim C3: the first big-endian 32-bit word decides the layout — value 1
dispatches to the padded (`_x64_read`) strategy for the remaining header fields
and the offset table, any other value continues with the standard strategy on
the same remaining stream — and the version stored in a successfully decoded
index is exactly the value as read. -/
theorem claim_C3 (b0 b1 b2 b3 : Nat) (rest : List Nat) :
    (beU32 b0 b1 b2 b3 = 1 →
      StrMap.read (b0 :: b1 :: b2 :: b3 :: rest) = x64Read rest) ∧
    (beU32 b0 b1 b2 b3 ≠ 1 →
      StrMap.read (b0 :: b1 :: b2 :: b3 :: rest) =
        (stdReadRaw (beU32 b0 b1 b2 b3) rest).bind finishRead) ∧
    (∀ m : StrMap, StrMap.read (b0 :: b1 :: b2 :: b3 :: rest) = .ok m →
      m.version = beU32 b0 b1 b2 b3) := by
  have hread : StrMap.read (b0 :: b1 :: b2 :: b3 :: rest) =
      if beU32 b0 b1 b2 b3 = 1 then x64Read rest
      else (stdReadRaw (beU32 b0 b1 b2 b3) rest).bind finishRead := rfl
  refine ⟨fun h1 => by rw [hread, if_pos h1], fun h1 => by rw [hread, if_neg h1],
    fun m hm => ?_⟩
  rw [hread] at hm
  by_cases h1 : beU32 b0 b1 b2 b3 = 1
  · rw [if_pos h1] at hm
    unfold x64Read at hm
    obtain ⟨⟨v, c, lg, sh, fl, d, vs⟩, hraw, hfin⟩ := except_bind_ok hm
    obtain ⟨hv, -, -⟩ := x64ReadRaw_ok hraw
    obtain ⟨-, hm'⟩ := finishRead_ok_iff.mp hfin
    rw [hm', h1, hv]
  · rw [if_neg h1] at hm
    obtain ⟨⟨v, c, lg, sh, fl, d, vs⟩, hraw, hfin⟩ := except_bind_ok hm
    obtain ⟨hv, -, -⟩ := stdReadRaw_ok hraw
    obtain ⟨-, hm'⟩ := finishRead_ok_iff.mp hfin
    rw [hm', hv]

/-- Claim C3 witness: version word 1 dispatches to the padded strategy, version
word 2 to the standard strategy, and a decoded index stores the version as
read (0 here). -/
theorem claim_C3_witness :
    (beU32 0 0 0 1 = 1 ∧ StrMap.read (0 :: 0 :: 0 :: 1 :: ([] : List Nat)) = x64Read []) ∧
    (beU32 0 0 0 2 ≠ 1 ∧ StrMap.read (0 :: 0 :: 0 :: 2 :: ([] : List Nat)) =
      (stdReadRaw (beU32 0 0 0 2) []).bind finishRead) ∧
    (StrMap.read (0 :: 0 :: 0 :: 0 ::
        (u32Bytes 0 ++ u32Bytes 0 ++ u32Bytes 0 ++ u32Bytes 0 ++ [0] ++ [0, 0, 0])) =
      .ok ⟨0, 0, 0, 0, 0, 0, []⟩ ∧
      (⟨0, 0, 0, 0, 0, 0, []⟩ : StrMap).version = beU32 0 0 0 0) := by
  refine ⟨⟨by decide, (claim_C3 0 0 0 1 []).1 (by decide)⟩,
    ⟨by decide, (claim_C3 0 0 0 2 []).2.1 (by decide)⟩,
    ⟨by decide, ?_⟩⟩
  exact (claim_C3 0 0 0 0
    (u32Bytes 0 ++ u32Bytes 0 ++ u32Bytes 0 ++ u32Bytes 0 ++ [0] ++ [0, 0, 0])).2.2
    ⟨0, 0, 0, 0, 0, 0, []⟩ (by decide)

theorem headerRaw_encodeStd_badFlags {v c lg sh fl d : Nat} (offs : List Nat)
    (hv : v < 2 ^ 32) (hv1 : v ≠ 1)
    (hc : c < 2 ^ 32) (hlg : lg < 2 ^ 32) (hsh : sh < 2 ^ 32) (hfl : fl < 2 ^ 32)
    (hbad : Nat.land fl 7 ≠ fl) :
    headerRaw (encodeStd v c lg sh fl d offs) = .error .unrecognizedFlags := by
  rw [encodeStd]
  simp only [List.append_assoc]
  rw [headerRaw, readU32_u32Bytes hv]
  dsimp only
  rw [if_neg hv1]
  have := stdReadRaw_badFlags (v := v)
    ([d] ++ [0, 0, 0] ++ (offs.map u32Bytes).flatten) hc hlg hsh hfl hbad
  simpa [List.append_assoc] using this

theorem headerRaw_encodeX64_badFlags {c lg sh fl d : Nat} (offs : List Nat)
    (hc : c < 2 ^ 32) (hlg : lg < 2 ^ 32) (hsh : sh < 2 ^ 32) (hfl : fl < 2 ^ 32)
    (hbad : Nat.land fl 7 ≠ fl) :
    headerRaw (encodeX64 c lg sh fl d offs) = .error .unrecognizedFlags := by
  rw [encodeX64]
  simp only [List.append_assoc]
  rw [headerRaw, readU32_u32Bytes (by norm_num)]
  dsimp only
  rw [if_pos rfl]
  have := x64ReadRaw_badFlags pad4 pad4 pad4 pad4
    (pad4 ++ [d] ++ [0, 0, 0, 0, 0, 0, 0] ++ (offs.map (fun o => u32Bytes o ++ pad4)).flatten)
    rfl rfl rfl rfl hc hlg hsh hfl hbad
  simpa [List.append_assoc] using this

theorem finishRead_version (w v c lg sh fl d : Nat) (vs : List Nat) :
    finishRead (w, c, lg, sh, fl, d, vs) =
      Except.map (fun m => { m with version := w }) (finishRead (v, c, lg, sh, fl, d, vs)) := by
  simp only [finishRead]
  split_ifs <;> rfl

/-- Claim C4: decoding the padded-layout encoding of any logical content yields
exactly the result of decoding the standard-layout encoding of the same content
with the stored version replaced by 1 — identical count, longest, shortest,
flags, delimiter and spans on success, and the identical error otherwise. -/
theorem claim_C4 {v c lg sh fl d : Nat} {offs : List Nat}
    (hv : v < 2 ^ 32) (hv1 : v ≠ 1) (hc : c < 2 ^ 32) (hlg : lg < 2 ^ 32)
    (hsh : sh < 2 ^ 32) (hfl : fl < 2 ^ 32)
    (ho : ∀ o ∈ offs, o < 2 ^ 32) :
    StrMap.read (encodeX64 c lg sh fl d offs) =
      Except.map (fun m => { m with version := 1 })
        (StrMap.read (encodeStd v c lg sh fl d offs)) := by
  by_cases hvalid : Nat.land fl 7 = fl
  · rw [read_eq_headerRaw, read_eq_headerRaw,
      headerRaw_encodeStd offs hv hv1 hc hlg hsh hfl hvalid ho,
      headerRaw_encodeX64 offs hc hlg hsh hfl hvalid ho]
    exact finishRead_version 1 v c lg sh fl d (offs.take ((c + 1) % 2 ^ 32))
  · rw [read_eq_headerRaw, read_eq_headerRaw,
      headerRaw_encodeStd_badFlags offs hv hv1 hc hlg hsh hfl hvalid,
      headerRaw_encodeX64_badFlags offs hc hlg hsh hfl hvalid]
    rfl

/-- Claim C4 witness: a concrete three-record content decodes identically in
both layouts apart from the stored version. -/
theorem claim_C4_witness :
    StrMap.read (encodeX64 2 9 4 3 37 [0, 17, 33]) =
      Except.map (fun m => { m with version := 1 })
        (StrMap.read (encodeStd 0 2 9 4 3 37 [0, 17, 33])) :=
  claim_C4 (by decide) (by decide) (by decide) (by decide) (by decide) (by decide)
    (by decide)

/-- Claim C5 counterexample: with declared count 0 and zero offsets present
after a well-formed standard header, decoding succeeds instead of failing — the
offset loop's read failures are silently skipped and zero spans match count 0. -/
theorem claim_C5_counterexample :
    StrMap.read (encodeStd 0 0 0 0 0 0 []) = .ok ⟨0, 0, 0, 0, 0, 0, []⟩ := by
  decide

/-- Claim C5 (amended): for a well-formed header with declared count
`c < 2^32 - 1`, decoding succeeds iff at least `c + 1` raw offsets follow the
header (extra trailing offsets are ignored) or `c = 0` (where even zero offsets
succeed); when `1 ≤ c` and only `c` or fewer offsets are present, decoding
fails with `countMismatch` carrying `c` and the actual span count. -/
theorem claim_C5_amended {v c lg sh fl d : Nat} {offs : List Nat}
    (hv : v < 2 ^ 32) (hv1 : v ≠ 1) (hc : c + 1 < 2 ^ 32) (hlg : lg < 2 ^ 32)
    (hsh : sh < 2 ^ 32) (hfl : fl < 2 ^ 32) (hvalid : Nat.land fl 7 = fl)
    (ho : ∀ o ∈ offs, o < 2 ^ 32) :
    ((∃ m, StrMap.read (encodeStd v c lg sh fl d offs) = .ok m) ↔
      (c + 1 ≤ offs.length ∨ c = 0)) ∧
    ((∃ m, StrMap.read (encodeX64 c lg sh fl d offs) = .ok m) ↔
      (c + 1 ≤ offs.length ∨ c = 0)) ∧
    (1 ≤ c → offs.length ≤ c →
      StrMap.read (encodeStd v c lg sh fl d offs) =
          .error (.countMismatch c (offs.length - 1)) ∧
        StrMap.read (encodeX64 c lg sh fl d offs) =
          .error (.countMismatch c (offs.length - 1))) := by
  have hmod : (c + 1) % 2 ^ 32 = c + 1 := Nat.mod_eq_of_lt hc
  have hstd : StrMap.read (encodeStd v c lg sh fl d offs) =
      finishRead (v, c, lg, sh, fl, d, offs.take (c + 1)) := by
    rw [read_eq_headerRaw, headerRaw_encodeStd offs hv hv1 (by omega) hlg hsh hfl hvalid ho,
      hmod]
    rfl
  have hx64 : StrMap.read (encodeX64 c lg sh fl d offs) =
      finishRead (1, c, lg, sh, fl, d, offs.take (c + 1)) := by
    rw [read_eq_headerRaw, headerRaw_encodeX64 offs (by omega) hlg hsh hfl hvalid ho, hmod]
    rfl
  have hplen : (offsetsPairs (offs.take (c + 1))).length = min (c + 1) offs.length - 1 := by
    rw [offsetsPairs_length, List.length_take]
  have hiff : (∃ m, finishRead (v, c, lg, sh, fl, d, offs.take (c + 1)) = .ok m) ↔
      (c + 1 ≤ offs.length ∨ c = 0) := by
    constructor
    · rintro ⟨m, hm⟩
      obtain ⟨hcc, -⟩ := finishRead_ok_iff.mp hm
      rw [hplen] at hcc
      omega
    · intro hor
      refine ⟨_, finishRead_ok_iff.mpr ⟨?_, rfl⟩⟩
      rw [hplen]
      omega
  have hiff1 : (∃ m, finishRead (1, c, lg, sh, fl, d, offs.take (c + 1)) = .ok m) ↔
      (c + 1 ≤ offs.length ∨ c = 0) := by
    constructor
    · rintro ⟨m, hm⟩
      obtain ⟨hcc, -⟩ := finishRead_ok_iff.mp hm
      rw [hplen] at hcc
      omega
    · intro hor
      refine ⟨_, finishRead_ok_iff.mpr ⟨?_, rfl⟩⟩
      rw [hplen]
      omega
  refine ⟨by rw [hstd]; exact hiff, by rw [hx64]; exact hiff1, fun h1 h2 => ?_⟩
  have hmin : (offsetsPairs (offs.take (c + 1))).length = offs.length - 1 := by
    rw [hplen]; omega
  have hne : c ≠ (offsetsPairs (offs.take (c + 1))).length := by
    rw [hmin]; omega
  constructor
  · rw [hstd, finishRead_mismatch v c lg sh fl d (offs.take (c + 1)) hne, hmin]
  · rw [hx64, finishRead_mismatch 1 c lg sh fl d (offs.take (c + 1)) hne, hmin]

/-- Claim C5 witness: count 2 with three offsets succeeds in both layouts;
count 2 with one offset fails with `countMismatch 2 0`. -/
theorem claim_C5_witness :
    ((∃ m, StrMap.read (encodeStd 0 2 9 4 3 37 [0, 17, 33]) = .ok m) ∧
      (∃ m, StrMap.read (encodeX64 2 9 4 3 37 [0, 17, 33]) = .ok m)) ∧
    (StrMap.read (encodeStd 0 2 9 4 3 37 [0]) = .error (.countMismatch 2 0) ∧
      StrMap.read (encodeX64 2 9 4 3 37 [0]) = .error (.countMismatch 2 0)) := by
  have h1 := @claim_C5_amended 0 2 9 4 3 37 [0, 17, 33]
    (by decide) (by decide) (by decide) (by decide) (by decide) (by decide) (by decide)
    (by decide)
  have h2 := @claim_C5_amended 0 2 9 4 3 37 [0]
    (by decide) (by decide) (by decide) (by decide) (by decide) (by decide) (by decide)
    (by decide)
  exact ⟨⟨h1.1.mpr (by decide), h1.2.1.mpr (by decide)⟩,
    h2.2.2 (by decide) (by decide)⟩

/-- Claim C6: whatever the other header fields, the padding bytes, and whatever
bytes follow the flags word, a flags word with any bit set outside
`{0x1, 0x2, 0x4}` always makes decoding fail with the unrecognized-flags
failure (the `expect` panic), in both layouts, and no index is produced. -/
theorem claim_C6 :
    (∀ v c lg sh fl : Nat, ∀ rest : List Nat,
      v < 2 ^ 32 → v ≠ 1 → c < 2 ^ 32 → lg < 2 ^ 32 → sh < 2 ^ 32 → fl < 2 ^ 32 →
      Nat.land fl 7 ≠ fl →
      StrMap.read (u32Bytes v ++ u32Bytes c ++ u32Bytes lg ++ u32Bytes sh ++
          u32Bytes fl ++ rest) = .error .unrecognizedFlags) ∧
    (∀ c lg sh fl : Nat, ∀ p1 p2 p3 p4 rest : List Nat,
      p1.length = 4 → p2.length = 4 → p3.length = 4 → p4.length = 4 →
      c < 2 ^ 32 → lg < 2 ^ 32 → sh < 2 ^ 32 → fl < 2 ^ 32 →
      Nat.land fl 7 ≠ fl →
      StrMap.read (u32Bytes 1 ++ p1 ++ u32Bytes c ++ p2 ++ u32Bytes lg ++ p3 ++
          u32Bytes sh ++ p4 ++ u32Bytes fl ++ rest) = .error .unrecognizedFlags) := by
  constructor
  · intro v c lg sh fl rest hv hv1 hc hlg hsh hfl hbad
    rw [read_eq_headerRaw]
    simp only [List.append_assoc]
    rw [headerRaw, readU32_u32Bytes hv]
    dsimp only
    rw [if_neg hv1]
    have := stdReadRaw_badFlags (v := v) rest hc hlg hsh hfl hbad
    simp only [List.append_assoc] at this
    rw [this]
    rfl
  · intro c lg sh fl p1 p2 p3 p4 rest hp1 hp2 hp3 hp4 hc hlg hsh hfl hbad
    rw [read_eq_headerRaw]
    simp only [List.append_assoc]
    rw [headerRaw, readU32_u32Bytes (by norm_num)]
    dsimp only
    rw [if_pos rfl]
    have := x64ReadRaw_badFlags p1 p2 p3 p4 rest hp1 hp2 hp3 hp4 hc hlg hsh hfl hbad
    simp only [List.append_assoc] at this
    rw [this]
    rfl

/-- Claim C6 witness: flags word 9 (bit 0x8 set) is rejected in both layouts
even though everything else is a plausible file. -/
theorem claim_C6_witness :
    StrMap.read (u32Bytes 0 ++ u32Bytes 2 ++ u32Bytes 9 ++ u32Bytes 4 ++
        u32Bytes 9 ++ [37, 0, 0, 0] ++ (([0, 17, 33].map u32Bytes).flatten)) =
      .error .unrecognizedFlags ∧
    StrMap.read (u32Bytes 1 ++ pad4 ++ u32Bytes 2 ++ pad4 ++ u32Bytes 9 ++ pad4 ++
        u32Bytes 4 ++ pad4 ++ u32Bytes 9 ++ pad4) = .error .unrecognizedFlags := by
  constructor
  · exact claim_C6.1 0 2 9 4 9 ([37, 0, 0, 0] ++ (([0, 17, 33].map u32Bytes).flatten))
      (by decide) (by decide) (by decide) (by decide) (by decide) (by decide) (by decide)
  · exact claim_C6.2 2 9 4 9 pad4 pad4 pad4 pad4 pad4
      (by decide) (by decide) (by decide) (by decide) (by decide) (by decide) (by decide)
      (by decide) (by decide)

/-- Claim C7: a count-0 file with exactly one trailing raw offset decodes
successfully, in either layout, to an index with an empty span sequence. -/
theorem claim_C7 {v lg sh fl d o : Nat}
    (hv : v < 2 ^ 32) (hv1 : v ≠ 1) (hlg : lg < 2 ^ 32) (hsh : sh < 2 ^ 32)
    (hfl : fl < 2 ^ 32) (hvalid : Nat.land fl 7 = fl) (ho : o < 2 ^ 32) :
    StrMap.read (encodeStd v 0 lg sh fl d [o]) = .ok ⟨v, 0, lg, sh, fl, d, []⟩ ∧
    StrMap.read (encodeX64 0 lg sh fl d [o]) = .ok ⟨1, 0, lg, sh, fl, d, []⟩ := by
  constructor
  · rw [read_eq_headerRaw,
      headerRaw_encodeStd [o] hv hv1 (by norm_num) hlg hsh hfl hvalid (by simpa using ho)]
    rfl
  · rw [read_eq_headerRaw,
      headerRaw_encodeX64 [o] (by norm_num) hlg hsh hfl hvalid (by simpa using ho)]
    rfl

/-- Claim C7 witness: a concrete zero-count file with one trailing offset in
each layout. -/
theorem claim_C7_witness :
    StrMap.read (encodeStd 0 0 9 4 3 37 [42]) = .ok ⟨0, 0, 9, 4, 3, 37, []⟩ ∧
    StrMap.read (encodeX64 0 9 4 3 37 [42]) = .ok ⟨1, 0, 9, 4, 3, 37, []⟩ :=
  claim_C7 (by decide) (by decide) (by decide) (by decide) (by decide) (by decide)
    (by decide)

/-- Claim C8 counterexample: with a read budget of `5 + 1` but only two raw
u32 values available, the builder yields 1 span, whereas `min(0, 2 - 1) = 0`.
The claimed `min` formula is wrong (the correct count is `available - 1`). -/
theorem claim_C8_counterexample :
    (readValues (5 + 1) (u32Bytes 10 ++ u32Bytes 20)).length = 2 ∧
    (offsetsPairs (readValues (5 + 1) (u32Bytes 10 ++ u32Bytes 20))).length = 1 ∧
    (offsetsPairs (readValues (5 + 1) (u32Bytes 10 ++ u32Bytes 20))).length ≠ min 0 (2 - 1) := by
  refine ⟨by decide, by decide, by decide⟩

/-- Claim C8 (amended): when the stream yields only `available < n` raw values
for a read budget of `n`, the builder yields exactly `max(0, available - 1)`
spans — that is, `available - 1` spans when `available ≥ 1` and none when
`available = 0` (natural subtraction makes both cases `available - 1`). -/
theorem claim_C8_amended (n : Nat) (s : List Nat)
    (_h : (readValues n s).length < n) :
    (offsetsPairs (readValues n s)).length = max 0 ((readValues n s).length - 1) := by
  rw [offsetsPairs_length]
  omega

/-- Claim C8 witness: budget 6, two values available, one span produced. -/
theorem claim_C8_witness :
    (readValues 6 (u32Bytes 10 ++ u32Bytes 20)).length < 6 ∧
    (offsetsPairs (readValues 6 (u32Bytes 10 ++ u32Bytes 20))).length =
      max 0 ((readValues 6 (u32Bytes 10 ++ u32Bytes 20)).length - 1) :=
  ⟨by decide, claim_C8_amended 6 (u32Bytes 10 ++ u32Bytes 20) (by decide)⟩

/-- Claim C9: a declared count of `2^32 - 1` makes the read budget
`(count + 1) mod 2^32 = 0`, so zero raw offsets are read and zero spans are
derived; no stream with that declared count can ever decode successfully, and
a well-formed header with that count fails with `countMismatch (2^32 - 1) 0`
in both layouts. -/
theorem claim_C9 :
    (∀ s : List Nat, ∀ m : StrMap, StrMap.read s = .ok m → m.count ≠ 2 ^ 32 - 1) ∧
    (∀ v lg sh fl d : Nat, ∀ offs : List Nat,
      v < 2 ^ 32 → v ≠ 1 → lg < 2 ^ 32 → sh < 2 ^ 32 → fl < 2 ^ 32 →
      Nat.land fl 7 = fl → (∀ o ∈ offs, o < 2 ^ 32) →
      StrMap.read (encodeStd v (2 ^ 32 - 1) lg sh fl d offs) =
          .error (.countMismatch (2 ^ 32 - 1) 0) ∧
        StrMap.read (encodeX64 (2 ^ 32 - 1) lg sh fl d offs) =
          .error (.countMismatch (2 ^ 32 - 1) 0)) := by
  constructor
  · intro s m h hcnt
    obtain ⟨hlen, -, vs, hoff, hsrc⟩ := read_ok_inv h
    have hmod : (m.count + 1) % 2 ^ 32 = 0 := by
      rw [hcnt]
      omega
    have hvs : vs = [] := by
      rcases hsrc with ⟨t, ht⟩ | ⟨t, ht⟩ <;> rw [ht, hmod] <;> rfl
    rw [hvs] at hoff
    rw [hoff] at hlen
    simp only [offsetsPairs, List.length_nil] at hlen
    omega
  · intro v lg sh fl d offs hv hv1 hlg hsh hfl hvalid ho
    have hmod : (2 ^ 32 - 1 + 1) % 2 ^ 32 = 0 := by omega
    have hne : (2 ^ 32 - 1 : Nat) ≠ (offsetsPairs (offs.take 0)).length := by
      simp [offsetsPairs]
    constructor
    · rw [read_eq_headerRaw,
        headerRaw_encodeStd offs hv hv1 (by omega) hlg hsh hfl hvalid ho, hmod]
      have := finishRead_mismatch v (2 ^ 32 - 1) lg sh fl d (offs.take 0) hne
      rw [show (offs.take 0) = ([] : List Nat) from rfl] at this ⊢
      rw [show ((offsetsPairs ([] : List Nat)).length = 0) from rfl] at this
      exact this
    · rw [read_eq_headerRaw,
        headerRaw_encodeX64 offs (by omega) hlg hsh hfl hvalid ho, hmod]
      have := finishRead_mismatch 1 (2 ^ 32 - 1) lg sh fl d (offs.take 0) hne
      rw [show (offs.take 0) = ([] : List Nat) from rfl] at this ⊢
      rw [show ((offsetsPairs ([] : List Nat)).length = 0) from rfl] at this
      exact this

/-- Claim C9 witness: a well-formed standard header declaring count `2^32 - 1`
followed by three offsets fails with `countMismatch (2^32 - 1) 0`, as does its
padded counterpart; and the general part applies to the successful decode of a
small file, whose count is indeed not `2^32 - 1`. -/
theorem claim_C9_witness :
    (StrMap.read (encodeStd 0 (2 ^ 32 - 1) 9 4 3 37 [0, 17, 33]) =
        .error (.countMismatch (2 ^ 32 - 1) 0) ∧
      StrMap.read (encodeX64 (2 ^ 32 - 1) 9 4 3 37 [0, 17, 33]) =
        .error (.countMismatch (2 ^ 32 - 1) 0)) ∧
    (StrMap.read (encodeStd 0 2 9 4 3 37 [0, 17, 33]) =
        .ok ⟨0, 2, 9, 4, 3, 37, [(0, 17), (17, 33)]⟩ ∧
      (⟨0, 2, 9, 4, 3, 37, [(0, 17), (17, 33)]⟩ : StrMap).count ≠ 2 ^ 32 - 1) := by
  refine ⟨?_, by decide, ?_⟩
  · exact claim_C9.2 0 9 4 3 37 [0, 17, 33] (by decide) (by decide) (by decide)
      (by decide) (by decide) (by decide) (by decide)
  · exact claim_C9.1 (encodeStd 0 2 9 4 3 37 [0, 17, 33])
      ⟨0, 2, 9, 4, 3, 37, [(0, 17), (17, 33)]⟩ (by decide)

/-- Claim C10: on every successfully decoded index, `is_random` is true exactly
when bit 0x1 of the stored flags word is set, `is_ordered` exactly when bit 0x2
is set, and `is_rotated` exactly when bit 0x4 is set.  (The accessors are pure
functions of the index in this embedding, as the Rust methods take `&self`.) -/
theorem claim_C10 {s : List Nat} {m : StrMap} (h : StrMap.read s = .ok m) :
    (m.is_random = true ↔ Nat.testBit m.flags 0) ∧
    (m.is_ordered = true ↔ Nat.testBit m.flags 1) ∧
    (m.is_rotated = true ↔ Nat.testBit m.flags 2) := by
  obtain ⟨-, hfl, -⟩ := read_ok_inv h
  have h7 : m.flags &&& 7 = m.flags := hfl
  have hle : m.flags &&& 7 ≤ 7 := Nat.and_le_right
  have h8 : m.flags < 8 := by omega
  simp only [StrMap.is_random, StrMap.is_ordered, StrMap.is_rotated]
  generalize m.flags = fl at h8
  interval_cases fl <;> refine ⟨⟨?_, ?_⟩, ⟨?_, ?_⟩, ⟨?_, ?_⟩⟩ <;> decide

/-- Claim C10 witness: the decoded index of a file with flags word 5
(RANDOM and ROTATED set, ORDERED clear). -/
theorem claim_C10_witness :
    StrMap.read (encodeStd 0 2 9 4 5 37 [0, 17, 33]) =
      .ok ⟨0, 2, 9, 4, 5, 37, [(0, 17), (17, 33)]⟩ ∧
    ((StrMap.is_random ⟨0, 2, 9, 4, 5, 37, [(0, 17), (17, 33)]⟩ = true ↔
        Nat.testBit 5 0) ∧
      (StrMap.is_ordered ⟨0, 2, 9, 4, 5, 37, [(0, 17), (17, 33)]⟩ = true ↔
        Nat.testBit 5 1) ∧
      (StrMap.is_rotated ⟨0, 2, 9, 4, 5, 37, [(0, 17), (17, 33)]⟩ = true ↔
        Nat.testBit 5 2)) :=
  ⟨by decide, claim_C10 (s := encodeStd 0 2 9 4 5 37 [0, 17, 33]) (by decide)⟩

end StrmapProof
